import Mathlib

set_option maxHeartbeats 1000000

/-!
Verification model of `biapol_taurus/_project_file_transfer.py`
(class `ProjectFileTransfer`).

The embedding is shallow:

* POSIX paths (`pathlib.Path`) are modelled by `PPath`: an `absolute` flag
  plus the list of path components.  Construction from a string mirrors
  `pathlib`'s parsing on the domain the claims use: components are split on
  `/`, empty components and `.` components are dropped, `..` is kept as an
  ordinary component.  (Double-leading-slash roots and `Path('..').name`
  corner cases of `pathlib` are outside the modelled domain.)
* The filesystem is an environment parameter `isFile : PPath → Bool`
  (the result of `Path.is_file()` for each path).
* External processes (`Datamover.dtrsync`, `Datamover.dtcp`, `waitfor`,
  `process.communicate`) do not run; instead each function records the
  argument vectors it launches, the timeout it hands to `waitfor`
  (`none` = argument omitted, i.e. `waitfor`'s own default), and takes the
  job's exit code / captured output as environment parameters.
* Raised exceptions become explicit constructors / `Except.error` values.
-/

/-- Model of a `pathlib.PurePosixPath`: absolute flag plus components. -/
structure PPath where
  absolute : Bool
  parts : List String
deriving DecidableEq, Repr

/-- Wrap a finished component, dropping empty and `.` components exactly as
`pathlib` does when parsing a path string. -/
def finishComp (cur : List Char) : List String :=
  let comp := cur.reverse
  if comp.isEmpty || comp = ['.'] then [] else [String.mk comp]

/-- Split a character list into path components at `/` separators;
`cur` is the (reversed) component being accumulated. -/
def splitComps : List Char → List Char → List String
  | [], cur => finishComp cur
  | c :: rest, cur =>
    if c = '/' then finishComp cur ++ splitComps rest []
    else splitComps rest (c :: cur)

/-- Model of `pathlib.Path(s)` for a path string `s`. -/
def parsePath (s : String) : PPath :=
  { absolute := s.data.head? == some '/', parts := splitComps s.data [] }

/-- Model of `Path.name`: the final component (empty for a root or `.`). -/
def PPath.name (p : PPath) : String :=
  (p.parts.getLast?).getD ""

/-- Model of `Path.parent`: drop the final component (a root or `.` is its
own parent). -/
def PPath.parent (p : PPath) : PPath :=
  { absolute := p.absolute, parts := p.parts.dropLast }

/-- Model of `list(Path.parents)`: the ancestors from the immediate parent
down to the anchor (`/` or `.`); its length equals the number of parts. -/
def parentsList (p : PPath) : List PPath :=
  (List.range p.parts.length).map fun i =>
    { absolute := p.absolute, parts := p.parts.take (p.parts.length - 1 - i) }

/-- Model of the `p / s` operator (`Path.joinpath` with a string): if `s`
parses as an absolute path it replaces `p`, otherwise its components are
appended. -/
def PPath.join (p : PPath) (s : String) : PPath :=
  let q := parsePath s
  if q.absolute then q else { absolute := p.absolute, parts := p.parts ++ q.parts }

/-- Model of `'/'.join` on components. -/
def joinSlash : List String → String
  | [] => ""
  | [a] => a
  | a :: b :: rest => a ++ "/" ++ joinSlash (b :: rest)

/-- Model of `str(path)` for a `pathlib` path. -/
def pathStr (p : PPath) : String :=
  if p.absolute then "/" ++ joinSlash p.parts
  else if p.parts.isEmpty then "." else joinSlash p.parts

/-- Final character of a string, if any. -/
def lastChar? (s : String) : Option Char :=
  s.data.getLast?

/-- Model of `filename.replace("\\", "/")` (single-character pattern, so the
replacement acts characterwise). -/
def normalizeSeps (s : String) : String :=
  String.mk (s.data.map fun c => if c = '\\' then '/' else c)

/-- The instance state of `ProjectFileTransfer` that `sync_with_fileserver`
and `get_file` read: the two configured directories and the temporary
(cache workspace) directory created by `_initialize_tmp`. -/
structure PFT where
  source_fileserver_dir : PPath
  target_project_space_dir : PPath
  temporary_directory_path : PPath
deriving DecidableEq, Repr

/-- The check of lines 480-481 of the source on one directory:
`dir.parent == list(dir.parents)[-2]`.  `list(...)[-2]` is the
second-to-last ancestor; when the path has fewer than two parts Python
would raise `IndexError` (the model returns `false`; theorems about
`sync_with_fileserver` therefore assume at least two parts). -/
def isTopLevelTierRoot (p : PPath) : Bool :=
  match (parentsList p).reverse.get? 1 with
  | some q => p.parent == q
  | none => false

/-- Result of a call to `sync_with_fileserver`: either the
`ConfirmationRequiredException` carrying the forced dry-run output, or
normal completion carrying `process.communicate()`'s output. -/
inductive SyncOutcome where
  | confirmationRequired (dryRunOutput : String)
  | completed (output : String)
deriving DecidableEq, Repr

/-- A call's observable effect: every `dtrsync` argument vector launched,
plus the outcome. -/
structure SyncResult where
  launched : List (List String)
  outcome : SyncOutcome
deriving DecidableEq, Repr

/-- Model of `ProjectFileTransfer.sync_with_fileserver` (lines 431-500).
`run` gives the output captured from a launched `dtrsync` invocation
(`process.communicate()`); `_background` is accepted and ignored exactly as
in the source body. -/
def sync_with_fileserver (pft : PFT) (run : List String → String) (direction : String)
    (delete overwrite_newer im_sure dry_run _background : Bool) : SyncResult :=
  let flags0 : String := if overwrite_newer then "-av" else "-auv"
  let optsDelete : List String := if delete then ["--delete"] else []
  let optsArgs : List String :=
    if direction == "from_fileserver" || direction == "from fileserver" then
      [pathStr pft.source_fileserver_dir ++ "/", pathStr pft.target_project_space_dir]
    else
      [pathStr pft.target_project_space_dir ++ "/", pathStr pft.source_fileserver_dir]
  let cr0 : Bool := delete || overwrite_newer
  let cr1 : Bool := cr0 || (isTopLevelTierRoot pft.target_project_space_dir &&
                            isTopLevelTierRoot pft.source_fileserver_dir)
  let cr2 : Bool := if dry_run then false else cr1
  let flags1 : String := if dry_run then flags0 ++ "n" else flags0
  if cr2 && !im_sure then
    let opts := (flags1 ++ "n") :: (optsDelete ++ optsArgs)
    { launched := [opts], outcome := SyncOutcome.confirmationRequired (run opts) }
  else
    let opts := flags1 :: (optsDelete ++ optsArgs)
    { launched := [opts], outcome := SyncOutcome.completed (run opts) }

/-- Whether a `SyncResult` raised `ConfirmationRequiredException`. -/
def SyncResult.raisedConfirmation (r : SyncResult) : Bool :=
  match r.outcome with
  | SyncOutcome.confirmationRequired _ => true
  | SyncOutcome.completed _ => false

/-- Modelled from the spec: the external `rsync` tool (invoked through
`dtrsync`, which is not part of this repository) applied to one destination
file, restricted to the facts the spec relies on: the dry-run flag `n`
changes nothing; the skip-newer flag `u` keeps a destination file strictly
newer than its source counterpart; `--delete` removes destination-only
files; otherwise the source version wins.  `FileMeta` abstracts a file as a
modification time plus an opaque content token. -/
structure FileMeta where
  mtime : Nat
  content : Nat
deriving DecidableEq, Repr

/-- Modelled from the spec: effect of one launched `rsync` command `cmd`
(first element = the option flags) on the destination tree `dstT`, given
the source tree `srcT`; trees map a relative file name to its metadata. -/
def rsyncTree (cmd : List String) (srcT dstT : String → Option FileMeta) :
    String → Option FileMeta :=
  fun f =>
    let flags := cmd.headD ""
    if flags.data.contains 'n' then dstT f
    else
      match srcT f, dstT f with
      | some m, some d =>
        if flags.data.contains 'u' && m.mtime < d.mtime then some d else some m
      | some m, none => some m
      | none, d => if cmd.contains "--delete" then none else d

deriving instance DecidableEq for Except

/-- Result of a call to `get_file`: the `dtcp` argument vectors launched,
the timeout handed to each `waitfor` call (`none` when the source omits the
argument, i.e. `waitfor`'s own default of waiting endlessly), and the
returned path or the raised `IOError` message. -/
structure GetFileResult where
  copyJobs : List (List String)
  waitTimeouts : List (Option Int)
  result : Except String PPath
deriving DecidableEq, Repr

/-- Model of `ProjectFileTransfer.get_file` (lines 502-560).  `copyExit` is
the exit code `waitfor` reports for the copy job.  `_timeout_in_s` and
`_wait_for_finish` are the caller's parameters; the source body never reads
them (line 555 calls `waitfor(process, quiet=False)` with no timeout), so
the model ignores them in the same way. -/
def get_file (pft : PFT) (isFile : PPath → Bool) (copyExit : Nat)
    (filename : String) (_timeout_in_s : Int) (_wait_for_finish : Bool) : GetFileResult :=
  let full_path := parsePath filename
  if isFile full_path then
    { copyJobs := [], waitTimeouts := [], result := Except.ok full_path }
  else
    let full_path2 := pft.temporary_directory_path.join full_path.name
    if isFile full_path2 then
      { copyJobs := [], waitTimeouts := [], result := Except.ok full_path2 }
    else
      let full_path3 := pft.target_project_space_dir.join filename
      if isFile full_path3 then
        { copyJobs := [], waitTimeouts := [], result := Except.ok full_path3 }
      else
        let filename2 := normalizeSeps filename
        let source_file := pft.source_fileserver_dir.join filename2
        let target_file := pft.temporary_directory_path.join source_file.name
        let job := ["-r", pathStr source_file, pathStr target_file]
        if 0 < copyExit then
          { copyJobs := [job], waitTimeouts := [none],
            result := Except.error
              ("Could not get file from fileserver: " ++ pathStr source_file) }
        else
          { copyJobs := [job], waitTimeouts := [none], result := Except.ok target_file }

/-- An rsync exclusion argument: one starting with `--exclude`
(covering `--exclude` and `--exclude-from` and their `=`-forms). -/
def isExclusionArg (a : String) : Bool :=
  "--exclude".data.isPrefixOf a.data

/-- A concrete, realistic instance configuration used by witnesses:
user-scoped fileserver and project directories, scratch in a cache
workspace. -/
def samplePFT : PFT :=
  { source_fileserver_dir := parsePath "/grp/g_group/user",
    target_project_space_dir := parsePath "/projects/p_proj/user",
    temporary_directory_path := parsePath "/scratch/ws/pfttmp" }

/-- A configuration whose scratch (temporary) directory lies inside the
project-space tree, so that a sync to the fileserver syncs out of the tier
containing the scratch directory. -/
def scratchInsidePFT : PFT :=
  { source_fileserver_dir := parsePath "/grp/g_group/user",
    target_project_space_dir := parsePath "/projects/p_proj/user",
    temporary_directory_path := parsePath "/projects/p_proj/user/tmpcache" }

/-- Well-formedness of a configured directory path: it has at least one
component and no component is empty or ends in a slash (true of every path
produced by `parsePath`, hence of every real directory argument). -/
def goodDir (p : PPath) : Prop :=
  p.parts ≠ [] ∧ ∀ x ∈ p.parts, x ≠ "" ∧ lastChar? x ≠ some '/'

/-!  Helper lemmas about the path model. -/

theorem getLast?_append_right {α : Type} (l₁ l₂ : List α) (h : l₂ ≠ []) :
    (l₁ ++ l₂).getLast? = l₂.getLast? := by
  induction l₁ with
  | nil => rfl
  | cons a t ih =>
    rcases t with _ | ⟨b, t⟩
    · rcases l₂ with _ | ⟨c, l₂⟩
      · exact absurd rfl h
      · rfl
    · simpa using ih

theorem lastChar?_append (s t : String) (h : t ≠ "") :
    lastChar? (s ++ t) = lastChar? t := by
  have hd : t.data ≠ [] := by
    intro hnil
    apply h
    cases t with
    | mk d => cases hnil; rfl
  simp only [lastChar?, String.data_append]
  exact getLast?_append_right _ _ hd

theorem lastChar?_append_slash (s : String) :
    lastChar? (s ++ "/") = some '/' := by
  rw [lastChar?_append s "/" (by decide)]
  rfl

theorem joinSlash_data_ne_nil (l : List String) (h : l ≠ [])
    (hne : ∀ x ∈ l, x ≠ "") : (joinSlash l).data ≠ [] := by
  match l with
  | [] => exact absurd rfl h
  | [a] =>
    have ha : a ≠ "" := hne a (by simp)
    simp only [joinSlash]
    intro hnil
    apply ha
    cases a with
    | mk d => cases hnil; rfl
  | a :: b :: rest =>
    simp only [joinSlash, String.data_append]
    intro hnil
    rcases List.append_eq_nil.mp hnil with ⟨h1, _⟩
    rcases List.append_eq_nil.mp h1 with ⟨_, h2⟩
    exact absurd h2 (by decide)

theorem lastChar?_joinSlash (l : List String) (h : l ≠ [])
    (hne : ∀ x ∈ l, x ≠ "") :
    lastChar? (joinSlash l) = lastChar? ((l.getLast?).getD "") := by
  match l with
  | [] => exact absurd rfl h
  | [a] => rfl
  | a :: b :: rest =>
    have hne2 : ∀ x ∈ b :: rest, x ≠ "" := by
      intro x hx
      exact hne x (List.mem_cons_of_mem a hx)
    have hd : (joinSlash (b :: rest)).data ≠ [] :=
      joinSlash_data_ne_nil (b :: rest) (by simp) hne2
    have hstep : lastChar? (joinSlash (a :: b :: rest)) =
        lastChar? (joinSlash (b :: rest)) := by
      simp only [joinSlash, lastChar?, String.data_append]
      rw [getLast?_append_right (a.data ++ ['/']) (joinSlash (b :: rest)).data hd]
    rw [hstep, lastChar?_joinSlash (b :: rest) (by simp) hne2]
    rfl

theorem getLast?_getD_mem {α : Type} (l : List α) (h : l ≠ []) (d : α) :
    (l.getLast?).getD d ∈ l := by
  match l with
  | [] => exact absurd rfl h
  | [a] => simp [List.getLast?]
  | a :: b :: rest =>
    have := getLast?_getD_mem (b :: rest) (by simp) d
    rw [List.getLast?_cons_cons]
    exact List.mem_cons_of_mem a this

theorem str_ne_empty_of_data (s : String) (h : s.data ≠ []) : s ≠ "" := by
  intro he
  rw [he] at h
  exact h rfl

theorem lastChar?_pathStr_ne_slash (p : PPath) (h : goodDir p) :
    lastChar? (pathStr p) ≠ some '/' := by
  obtain ⟨hnil, hx⟩ := h
  have hne : ∀ x ∈ p.parts, x ≠ "" := fun x hxm => (hx x hxm).1
  have hlast : lastChar? (joinSlash p.parts) =
      lastChar? ((p.parts.getLast?).getD "") :=
    lastChar?_joinSlash p.parts hnil hne
  have hmem : (p.parts.getLast?).getD "" ∈ p.parts := getLast?_getD_mem p.parts hnil ""
  have hgoal : lastChar? (joinSlash p.parts) ≠ some '/' := by
    rw [hlast]
    exact (hx _ hmem).2
  have hie : p.parts.isEmpty = false := by
    cases hp : p.parts with
    | nil => exact absurd hp hnil
    | cons x xs => rfl
  have hdata : (joinSlash p.parts).data ≠ [] := joinSlash_data_ne_nil p.parts hnil hne
  cases hb : p.absolute with
  | false =>
    simp only [pathStr, hb, hie, Bool.false_eq_true, if_false]
    exact hgoal
  | true =>
    simp only [pathStr, hb, if_true]
    rw [lastChar?_append "/" (joinSlash p.parts) (str_ne_empty_of_data _ hdata)]
    exact hgoal

theorem PPath.join_name (p : PPath) (s : String)
    (h : (parsePath s).parts ≠ []) : (p.join s).name = (parsePath s).name := by
  cases hb : (parsePath s).absolute with
  | true => simp [PPath.join, hb]
  | false =>
    simp only [PPath.join, hb, Bool.false_eq_true, if_false, PPath.name]
    rw [getLast?_append_right _ _ h]

theorem normalizeSeps_eq_self (s : String) (h : '\\' ∉ s.data) :
    normalizeSeps s = s := by
  unfold normalizeSeps
  have hmap : s.data.map (fun c => if c = '\\' then '/' else c) = s.data := by
    conv_rhs => rw [← List.map_id s.data]
    apply List.map_congr_left
    intro c hc
    have hcne : ¬ c = '\\' := fun he => h (he ▸ hc)
    simp [hcne]
  rw [hmap]

theorem headD_cons (s : String) (l : List String) : (s :: l).headD "" = s := rfl

theorem rsyncTree_dry_run (cmd : List String)
    (h : (cmd.headD "").data.contains 'n' = true)
    (srcT dstT : String → Option FileMeta) :
    rsyncTree cmd srcT dstT = dstT :=
  funext fun f => by
    have h2 : 'n' ∈ (cmd.head?.getD "").data := by
      cases cmd <;> simpa using h
    simp [rsyncTree, h2]

theorem rsyncTree_newer_kept (cmd : List String)
    (hn : (cmd.headD "").data.contains 'n' = false)
    (hu : (cmd.headD "").data.contains 'u' = true)
    (srcT dstT : String → Option FileMeta) (f : String) (sm dm : FileMeta)
    (hs : srcT f = some sm) (hd : dstT f = some dm) (hlt : sm.mtime < dm.mtime) :
    rsyncTree cmd srcT dstT f = some dm := by
  have hn2 : 'n' ∉ (cmd.head?.getD "").data := by
    cases cmd <;> simpa using hn
  have hu2 : 'u' ∈ (cmd.head?.getD "").data := by
    cases cmd <;> simpa using hu
  simp [rsyncTree, hn2, hu2, hs, hd, hlt]

theorem sync_launched_eq (pft : PFT) (run : List String → String) (direction : String)
    (delete ow imsure dry b : Bool) :
    (sync_with_fileserver pft run direction delete ow imsure dry b).launched =
      [((if ow then "-av" else "-auv") ++ (if dry then "n" else "") ++
        (if ((if dry then false
              else (delete || ow ||
                (isTopLevelTierRoot pft.target_project_space_dir &&
                 isTopLevelTierRoot pft.source_fileserver_dir))) && !imsure)
         then "n" else "")) ::
        ((if delete then ["--delete"] else []) ++
         (if direction == "from_fileserver" || direction == "from fileserver" then
            [pathStr pft.source_fileserver_dir ++ "/", pathStr pft.target_project_space_dir]
          else
            [pathStr pft.target_project_space_dir ++ "/", pathStr pft.source_fileserver_dir]))] := by
  cases dry <;> cases ow <;> cases delete <;> cases imsure <;>
    cases hsT : isTopLevelTierRoot pft.target_project_space_dir <;>
      cases hsS : isTopLevelTierRoot pft.source_fileserver_dir <;>
        simp_all [sync_with_fileserver]

theorem headChar_pathStr_absolute (p : PPath) (h : p.absolute = true) :
    (pathStr p).data.head? = some '/' := by
  simp [pathStr, h, String.data_append]

theorem headChar_append_left (s t : String) (h : s.data.head? = some '/') :
    (s ++ t).data.head? = some '/' := by
  rw [String.data_append]
  cases hs : s.data with
  | nil => rw [hs] at h; exact absurd h (by simp)
  | cons c rest => rw [hs] at h; simpa using h

theorem isExclusionArg_false_of_head (a : String) (h : a.data.head? = some '/') :
    isExclusionArg a = false := by
  unfold isExclusionArg
  cases ha : a.data with
  | nil => rw [ha] at h; exact absurd h (by simp)
  | cons c rest =>
    rw [ha] at h
    have hc : c = '/' := by simpa using h
    subst hc
    rfl

theorem ne_of_lastChar (a b : String) (h : lastChar? a ≠ lastChar? b) : a ≠ b :=
  fun he => h (he ▸ rfl)

theorem ne_of_headChar (a b : String) (h : a.data.head? ≠ b.data.head?) : a ≠ b :=
  fun he => h (he ▸ rfl)

/-- The source's whole-tree check on one directory holds exactly when the
path has two components (e.g. `/grp/g_group`): a top-level tier root, whose
parent is the tier boundary. -/
theorem isTopLevelTierRoot_iff_two_parts (p : PPath) :
    isTopLevelTierRoot p = true ↔ p.parts.length = 2 := by
  unfold isTopLevelTierRoot
  cases hl : p.parts.length with
  | zero => simp [parentsList, hl]
  | succ n =>
    cases n with
    | zero => simp [parentsList, hl]
    | succ m =>
      have hlen : (parentsList p).length = m + 2 := by simp [parentsList, hl]
      have h1 : (1 : Nat) < (parentsList p).length := by omega
      have harith : m + 2 - 1 - 1 = m := by omega
      have h2 : (parentsList p).get? m =
          some { absolute := p.absolute, parts := p.parts.take 1 } := by
        have hm2 : m < m + 2 := by omega
        have harith2 : m + 1 + 1 - 1 - m = 1 := by omega
        simp [parentsList, List.get?_map, List.get?_range, hl, hm2, harith2]
      rw [List.get?_reverse h1, hlen, harith, h2]
      simp only [beq_iff_eq, PPath.parent]
      constructor
      · intro he
        have hle : (p.parts.dropLast).length = (p.parts.take 1).length := by
          have hpp : p.parts.dropLast = p.parts.take 1 := by
            have := congrArg PPath.parts he
            simpa using this
          rw [hpp]
        rw [List.length_dropLast, List.length_take, hl] at hle
        omega
      · intro he
        have hm : m = 0 := by omega
        subst hm
        have hdt : p.parts.dropLast = p.parts.take 1 := by
          rw [List.dropLast_eq_take, hl]
        simp [hdt]

/-!  Claim theorems. -/

/-- C1: `sync_with_fileserver` raises `ConfirmationRequiredException` if and
only if `im_sure` is false and the request is dangerous, i.e. `dry_run` is
false and (`delete`, or `overwrite_newer`, or both configured directories
are top-level tier roots); with `dry_run` true, or `im_sure` true, or no
dangerous condition, the real sync runs and nothing is raised.  The
two-parts-or-more hypotheses keep the model on the domain where the
source's `list(dir.parents)[-2]` does not raise `IndexError`. -/
theorem sync_confirmation_iff (pft : PFT) (run : List String → String)
    (direction : String) (delete ow imsure dry b : Bool)
    (hS : 2 ≤ pft.source_fileserver_dir.parts.length)
    (hT : 2 ≤ pft.target_project_space_dir.parts.length) :
    (sync_with_fileserver pft run direction delete ow imsure dry b).raisedConfirmation = true ↔
      (imsure = false ∧ dry = false ∧
        (delete = true ∨ ow = true ∨
          (isTopLevelTierRoot pft.source_fileserver_dir = true ∧
           isTopLevelTierRoot pft.target_project_space_dir = true))) := by
  cases hsrc : isTopLevelTierRoot pft.source_fileserver_dir <;>
    cases htgt : isTopLevelTierRoot pft.target_project_space_dir <;>
      cases delete <;> cases ow <;> cases imsure <;> cases dry <;>
        simp [sync_with_fileserver, SyncResult.raisedConfirmation, hsrc, htgt]

/-- C1 witness: a dangerous request (`delete=true`, `im_sure=false`,
`dry_run=false`) on concrete directories raises the confirmation error. -/
theorem sync_confirmation_iff_witness :
    (sync_with_fileserver
        ⟨parsePath "/grp/g_group/user", parsePath "/projects/p_proj/user",
         parsePath "/scratch/ws/t"⟩ (fun _ => "") "from fileserver"
        true false false false true).raisedConfirmation = true ↔
      (false = false ∧ false = false ∧
        (true = true ∨ false = true ∨
          (isTopLevelTierRoot (parsePath "/grp/g_group/user") = true ∧
           isTopLevelTierRoot (parsePath "/projects/p_proj/user") = true))) :=
  sync_confirmation_iff
    ⟨parsePath "/grp/g_group/user", parsePath "/projects/p_proj/user",
     parsePath "/scratch/ws/t"⟩ (fun _ => "") "from fileserver"
    true false false false true (by decide) (by decide)

/-- C4: a name that, taken exactly as given, exists as a regular file is
returned unchanged by `get_file`, and no transfer job is issued. -/
theorem get_file_as_given (pft : PFT) (isFile : PPath → Bool) (copyExit : Nat)
    (filename : String) (t : Int) (w : Bool)
    (h : isFile (parsePath filename) = true) :
    get_file pft isFile copyExit filename t w =
      { copyJobs := [], waitTimeouts := [], result := Except.ok (parsePath filename) } := by
  simp [get_file, h]

/-- C4 witness: a concrete accessible path is returned as given with no job. -/
theorem get_file_as_given_witness :
    get_file
        ⟨parsePath "/grp/g_group/u", parsePath "/projects/p_proj/u",
         parsePath "/scratch/ws/t"⟩
        (fun p => p == parsePath "/home/user/data.txt") 0 "/home/user/data.txt" (-1) true =
      { copyJobs := [], waitTimeouts := [],
        result := Except.ok (parsePath "/home/user/data.txt") } :=
  get_file_as_given
    ⟨parsePath "/grp/g_group/u", parsePath "/projects/p_proj/u",
     parsePath "/scratch/ws/t"⟩
    (fun p => p == parsePath "/home/user/data.txt") 0 "/home/user/data.txt" (-1) true
    (by decide)

/-- C9: when the name as given is not a file and its base name is not in the
cache (temporary) directory, but `target_project_space_dir/<name>` is a
regular file, `get_file` returns that project-space path with no transfer
job; this candidate is checked after the cache and before any remote copy. -/
theorem get_file_project_space_hit (pft : PFT) (isFile : PPath → Bool)
    (copyExit : Nat) (filename : String) (t : Int) (w : Bool)
    (h1 : isFile (parsePath filename) = false)
    (h2 : isFile (pft.temporary_directory_path.join (parsePath filename).name) = false)
    (h3 : isFile (pft.target_project_space_dir.join filename) = true) :
    get_file pft isFile copyExit filename t w =
      { copyJobs := [], waitTimeouts := [],
        result := Except.ok (pft.target_project_space_dir.join filename) } := by
  simp [get_file, h1, h2, h3]

/-- C9 witness: a concrete name found only under the project space. -/
theorem get_file_project_space_hit_witness :
    get_file
        ⟨parsePath "/grp/g_group/u", parsePath "/projects/p_proj/u",
         parsePath "/scratch/ws/t"⟩
        (fun p => p == parsePath "/projects/p_proj/u/folder/data.txt") 0
        "folder/data.txt" (-1) true =
      { copyJobs := [], waitTimeouts := [],
        result := Except.ok
          ((parsePath "/projects/p_proj/u").join "folder/data.txt") } :=
  get_file_project_space_hit
    ⟨parsePath "/grp/g_group/u", parsePath "/projects/p_proj/u",
     parsePath "/scratch/ws/t"⟩
    (fun p => p == parsePath "/projects/p_proj/u/folder/data.txt") 0
    "folder/data.txt" (-1) true (by decide) (by decide) (by decide)

/-- C3: when the name is not an accessible file in any local tier,
`get_file` issues exactly one copy job for
`source_fileserver_dir/<normalized name>` into the cache; a positive exit
code raises an `IOError` naming the attempted remote source path, and exit
code 0 returns the cache target `temporary_directory_path/<base name>`. -/
theorem get_file_full_miss (pft : PFT) (isFile : PPath → Bool) (copyExit : Nat)
    (filename : String) (t : Int) (w : Bool)
    (h1 : isFile (parsePath filename) = false)
    (h2 : isFile (pft.temporary_directory_path.join (parsePath filename).name) = false)
    (h3 : isFile (pft.target_project_space_dir.join filename) = false)
    (hbase : (parsePath (normalizeSeps filename)).parts ≠ []) :
    (get_file pft isFile copyExit filename t w).copyJobs =
      [["-r", pathStr (pft.source_fileserver_dir.join (normalizeSeps filename)),
        pathStr (pft.temporary_directory_path.join
          (parsePath (normalizeSeps filename)).name)]] ∧
    (0 < copyExit → (get_file pft isFile copyExit filename t w).result =
      Except.error ("Could not get file from fileserver: " ++
        pathStr (pft.source_fileserver_dir.join (normalizeSeps filename)))) ∧
    (copyExit = 0 → (get_file pft isFile copyExit filename t w).result =
      Except.ok (pft.temporary_directory_path.join
        (parsePath (normalizeSeps filename)).name)) := by
  have hjn : (pft.source_fileserver_dir.join (normalizeSeps filename)).name =
      (parsePath (normalizeSeps filename)).name := PPath.join_name _ _ hbase
  refine ⟨?_, ?_, ?_⟩
  · by_cases hc : 0 < copyExit <;> simp [get_file, h1, h2, h3, hjn, hc]
  · intro hc
    simp [get_file, h1, h2, h3, hjn, hc]
  · intro hc
    subst hc
    simp [get_file, h1, h2, h3, hjn]

/-- C3 witness: a concrete full miss with failing exit code 5. -/
theorem get_file_full_miss_witness :
    (get_file samplePFT (fun _ => false) 5 "folder/data.txt" (-1) true).copyJobs =
      [["-r", pathStr (samplePFT.source_fileserver_dir.join (normalizeSeps "folder/data.txt")),
        pathStr (samplePFT.temporary_directory_path.join
          (parsePath (normalizeSeps "folder/data.txt")).name)]] ∧
    (0 < 5 → (get_file samplePFT (fun _ => false) 5 "folder/data.txt" (-1) true).result =
      Except.error ("Could not get file from fileserver: " ++
        pathStr (samplePFT.source_fileserver_dir.join (normalizeSeps "folder/data.txt")))) ∧
    ((5 : Nat) = 0 → (get_file samplePFT (fun _ => false) 5 "folder/data.txt" (-1) true).result =
      Except.ok (samplePFT.temporary_directory_path.join
        (parsePath (normalizeSeps "folder/data.txt")).name)) :=
  get_file_full_miss samplePFT (fun _ => false) 5 "folder/data.txt" (-1) true
    (by decide) (by decide) (by decide) (by decide)

/-- C7 (refuted by the code, which contradicts its own docstring): the
caller's positive `timeout_in_s` is never forwarded to `waitfor` — line 555
calls `waitfor(process, quiet=False)` with the timeout argument omitted, so
the wait is indefinite regardless of the caller's timeout.  At a concrete
missing file, a call with timeout 5 records a `waitfor` invocation carrying
no timeout (`none`) and is indistinguishable from a call with the endless
default `-1`. -/
theorem get_file_timeout_ignored :
    (get_file samplePFT (fun _ => false) 0 "missing.txt" 5 true).waitTimeouts =
      [none] ∧
    get_file samplePFT (fun _ => false) 0 "missing.txt" 5 true =
      get_file samplePFT (fun _ => false) 0 "missing.txt" (-1) true := by
  decide

/-- C10: for every direction string other than `from_fileserver` and
`from fileserver`, the sync goes to the fileserver: in every launched
command the last argument (rsync destination) is the fileserver directory
and the second-to-last (rsync source) is the project-space directory with a
trailing slash. -/
theorem sync_direction_fallback (pft : PFT) (run : List String → String)
    (direction : String) (delete ow imsure dry b : Bool)
    (hd1 : direction ≠ "from_fileserver") (hd2 : direction ≠ "from fileserver")
    (hS : 2 ≤ pft.source_fileserver_dir.parts.length)
    (hT : 2 ≤ pft.target_project_space_dir.parts.length) :
    ∀ c ∈ (sync_with_fileserver pft run direction delete ow imsure dry b).launched,
      c.getLast? = some (pathStr pft.source_fileserver_dir) ∧
      c.reverse.get? 1 = some (pathStr pft.target_project_space_dir ++ "/") := by
  have hb1 : (direction == "from_fileserver") = false := by
    simpa using hd1
  have hb2 : (direction == "from fileserver") = false := by
    simpa using hd2
  intro c hc
  cases hsrc : isTopLevelTierRoot pft.source_fileserver_dir <;>
    cases htgt : isTopLevelTierRoot pft.target_project_space_dir <;>
      cases delete <;> cases ow <;> cases imsure <;> cases dry <;>
        simp_all [sync_with_fileserver, hb1, hb2]

/-- C10 witness: with the non-matching direction string "to fileserver" the
launched command has the project-space directory (trailing slash) as source
and the fileserver directory as destination. -/
theorem sync_direction_fallback_witness :
    (["-auv", "/projects/p_proj/user/", "/grp/g_group/user"] : List String).getLast? =
      some (pathStr samplePFT.source_fileserver_dir) ∧
    (["-auv", "/projects/p_proj/user/", "/grp/g_group/user"] : List String).reverse.get? 1 =
      some (pathStr samplePFT.target_project_space_dir ++ "/") :=
  sync_direction_fallback samplePFT (fun _ => "") "to fileserver"
    false false false false true (by decide) (by decide) (by decide) (by decide)
    ["-auv", "/projects/p_proj/user/", "/grp/g_group/user"] (by decide)

/-- C2: for every dangerous request (delete, overwrite-newer, or whole-tree
sync; not a dry run) without `im_sure`, `sync_with_fileserver` launches
exactly one command, which carries the forced dry-run flag `n`; it raises
the confirmation error carrying that command's collected output; and under
the rsync model every launched command leaves the destination tree
unmodified (no mutating command is launched). -/
theorem sync_dangerous_unconfirmed (pft : PFT) (run : List String → String)
    (direction : String) (delete ow b : Bool)
    (hS : 2 ≤ pft.source_fileserver_dir.parts.length)
    (hT : 2 ≤ pft.target_project_space_dir.parts.length)
    (hdanger : delete = true ∨ ow = true ∨
      (isTopLevelTierRoot pft.target_project_space_dir = true ∧
       isTopLevelTierRoot pft.source_fileserver_dir = true)) :
    ∃ cmd, (sync_with_fileserver pft run direction delete ow false false b).launched = [cmd] ∧
      (sync_with_fileserver pft run direction delete ow false false b).outcome =
        SyncOutcome.confirmationRequired (run cmd) ∧
      lastChar? (cmd.headD "") = some 'n' ∧
      ∀ srcT dstT : String → Option FileMeta, rsyncTree cmd srcT dstT = dstT := by
  cases hsrc : isTopLevelTierRoot pft.source_fileserver_dir <;>
    cases htgt : isTopLevelTierRoot pft.target_project_space_dir <;>
      cases delete <;> cases ow <;>
        simp_all [sync_with_fileserver] <;>
          first
          | (intro srcT dstT
             exact rsyncTree_dry_run _ (by rw [headD_cons]; decide) srcT dstT)
          | (refine ⟨by decide, ?_⟩
             intro srcT dstT
             exact rsyncTree_dry_run _ (by rw [headD_cons]; decide) srcT dstT)
          | (refine ⟨rfl, rfl, by decide, ?_⟩
             intro srcT dstT
             exact rsyncTree_dry_run _ (by rw [headD_cons]; decide) srcT dstT)

/-- C2 witness: a concrete `delete=true` request without confirmation. -/
theorem sync_dangerous_unconfirmed_witness :
    ∃ cmd, (sync_with_fileserver samplePFT (fun _ => "DRYOUT") "from fileserver"
        true false false false true).launched = [cmd] ∧
      (sync_with_fileserver samplePFT (fun _ => "DRYOUT") "from fileserver"
        true false false false true).outcome =
        SyncOutcome.confirmationRequired ((fun _ => "DRYOUT") cmd) ∧
      lastChar? (cmd.headD "") = some 'n' ∧
      ∀ srcT dstT : String → Option FileMeta, rsyncTree cmd srcT dstT = dstT :=
  sync_dangerous_unconfirmed samplePFT (fun _ => "DRYOUT") "from fileserver"
    true false true (by decide) (by decide) (Or.inl rfl)

/-- C5 (amended): for a name containing no backslash and having at least
one path component, once `get_file` has staged it (issuing a copy job and
returning the cache path `t`), a second `get_file` of the same name on a
filesystem where `t` now exists returns the same cached path and issues no
new transfer job — independent of the second call's copy exit code, i.e.
of any change to the remote file.  (The unamended claim fails for names
containing backslashes: the cache lookup uses the base name of the
unnormalized name, see the counterexample.) -/
theorem get_file_second_resolve_cached (pft : PFT) (isF : PPath → Bool)
    (filename : String) (t : PPath) (ec : Nat) (ti : Int) (wf : Bool)
    (hnb : filename.data.contains '\\' = false)
    (hnp : (parsePath filename).parts ≠ [])
    (h1 : (get_file pft isF 0 filename (-1) true).copyJobs ≠ [])
    (h2 : (get_file pft isF 0 filename (-1) true).result = Except.ok t) :
    get_file pft (fun p => p == t || isF p) ec filename ti wf =
      { copyJobs := [], waitTimeouts := [], result := Except.ok t } := by
  have hnb2 : '\\' ∉ filename.data := by simpa using hnb
  have hnorm : normalizeSeps filename = filename := normalizeSeps_eq_self filename hnb2
  cases hA : isF (parsePath filename) with
  | true => simp [get_file, hA] at h1
  | false =>
    cases hB : isF (pft.temporary_directory_path.join (parsePath filename).name) with
    | true => simp [get_file, hA, hB] at h1
    | false =>
      cases hC : isF (pft.target_project_space_dir.join filename) with
      | true => simp [get_file, hA, hB, hC] at h1
      | false =>
        have hname : (pft.source_fileserver_dir.join filename).name =
            (parsePath filename).name := PPath.join_name _ _ hnp
        simp only [get_file, hA, hB, hC, hnorm, hname, Bool.false_eq_true, if_false,
          Nat.lt_irrefl, Except.ok.injEq] at h2
        by_cases hAq : parsePath filename = t
        · have hA2 : ((parsePath filename == t) || isF (parsePath filename)) = true := by
            simp [hAq]
          simp [get_file, hA2, hAq]
        · have hA2 : ((parsePath filename == t) || isF (parsePath filename)) = false := by
            simp [hAq, hA]
          have hB2 : ((pft.temporary_directory_path.join (parsePath filename).name == t) ||
              isF (pft.temporary_directory_path.join (parsePath filename).name)) = true := by
            simp [h2]
          simp [get_file, hA2, hB2, h2]

/-- C5 witness: a staged plain name is served from the cache on the second
call, with no new copy job, whatever the second call's exit code. -/
theorem get_file_second_resolve_cached_witness :
    get_file samplePFT
        (fun p => p == parsePath "/scratch/ws/pfttmp/data.txt" || (fun _ => false) p) 7
        "folder/data.txt" 3 false =
      { copyJobs := [], waitTimeouts := [],
        result := Except.ok (parsePath "/scratch/ws/pfttmp/data.txt") } :=
  get_file_second_resolve_cached samplePFT (fun _ => false) "folder/data.txt"
    (parsePath "/scratch/ws/pfttmp/data.txt") 7 3 false (by decide) (by decide)
    (by decide) (by decide)

/-- C5 counterexample: the claim as stated fails for a name containing
backslashes.  `"folder\\data.txt"` is staged to the cache as `data.txt`
(first conjunct), yet a second `get_file` of the very same name, with the
staged file present, issues a fresh copy job (second conjunct) because the
cache lookup uses the base name of the name as given, before backslash
normalization. -/
theorem get_file_backslash_restages :
    (get_file samplePFT (fun _ => false) 0 "folder\\data.txt" (-1) true).result =
      Except.ok (parsePath "/scratch/ws/pfttmp/data.txt") ∧
    (get_file samplePFT
        (fun p => p == parsePath "/scratch/ws/pfttmp/data.txt") 0
        "folder\\data.txt" (-1) true).copyJobs.length = 1 := by
  decide

theorem sndChar_append (s t : String) (c : Char) (h : s.data.get? 1 = some c) :
    (s ++ t).data.get? 1 = some c := by
  rw [String.data_append]
  cases hs : s.data with
  | nil => rw [hs] at h; exact absurd h (by simp)
  | cons a rest =>
    cases hr : rest with
    | nil => rw [hs, hr] at h; exact absurd h (by simp)
    | cons a2 r2 =>
      rw [hs, hr] at h
      simpa using h

theorem isExclusionArg_false_of_snd (a : String) (h : a.data.get? 1 = some 'a') :
    isExclusionArg a = false := by
  unfold isExclusionArg
  cases ha : a.data with
  | nil => rw [ha] at h; exact absurd h (by simp)
  | cons c rest =>
    cases hr : rest with
    | nil => rw [ha, hr] at h; exact absurd h (by simp)
    | cons c2 r2 =>
      rw [ha, hr] at h
      have hc2 : c2 = 'a' := by simpa using h
      subst hc2
      show List.isPrefixOf ('-' :: '-' :: "exclude".data) (c :: 'a' :: r2) = false
      simp [List.isPrefixOf]

theorem sync_head_suffix (pft : PFT) (run : List String → String) (direction : String)
    (delete ow imsure dry b : Bool) :
    ∀ c ∈ (sync_with_fileserver pft run direction delete ow imsure dry b).launched,
      ∃ sfx, (sfx = "" ∨ sfx = "n") ∧
        c.headD "" = (if ow then "-av" else "-auv") ++ sfx := by
  intro c hc
  rw [sync_launched_eq] at hc
  simp only [List.mem_singleton] at hc
  subst hc
  rw [headD_cons]
  cases dry with
  | true =>
    refine ⟨"n", Or.inr rfl, ?_⟩
    simp
  | false =>
    by_cases hF : ((delete || ow ||
        (isTopLevelTierRoot pft.target_project_space_dir &&
         isTopLevelTierRoot pft.source_fileserver_dir)) && !imsure) = true
    · refine ⟨"n", Or.inr rfl, ?_⟩
      simp [hF]
    · refine ⟨"", Or.inl rfl, ?_⟩
      simp [hF]

theorem sync_delete_mem (pft : PFT) (run : List String → String) (direction : String)
    (delete ow imsure dry b : Bool)
    (haS : pft.source_fileserver_dir.absolute = true)
    (haT : pft.target_project_space_dir.absolute = true) :
    ∀ c ∈ (sync_with_fileserver pft run direction delete ow imsure dry b).launched,
      ("--delete" ∈ c ↔ delete = true) := by
  intro c hc
  rw [sync_launched_eq] at hc
  simp only [List.mem_singleton] at hc
  subst hc
  cases delete with
  | true => simp
  | false =>
    simp only [Bool.false_eq_true, iff_false, if_neg (by decide : ¬False), List.nil_append]
    intro hm
    rcases List.mem_cons.mp hm with hhead | hargs
    · have hsnd : (((if ow then "-av" else "-auv") ++ (if dry then "n" else "") ++
          (if ((if dry then false
                else (false || ow ||
                  (isTopLevelTierRoot pft.target_project_space_dir &&
                   isTopLevelTierRoot pft.source_fileserver_dir))) && !imsure)
           then "n" else ""))).data.get? 1 = some 'a' := by
        cases ow <;> exact sndChar_append _ _ _ (sndChar_append _ _ _ (by decide))
      rw [← hhead] at hsnd
      exact absurd hsnd (by decide)
    · cases hdir : (direction == "from_fileserver" || direction == "from fileserver") with
      | true =>
        rw [if_pos hdir] at hargs
        rcases List.mem_cons.mp hargs with he1 | he2
        · exact (ne_of_lastChar _ _ (by rw [lastChar?_append_slash]; decide)) he1
        · have he3 : "--delete" = pathStr pft.target_project_space_dir := by
            simpa using he2
          exact (ne_of_headChar _ _ (by
            rw [headChar_pathStr_absolute _ haT]; decide)) he3
      | false =>
        rw [if_neg (by simp [hdir])] at hargs
        rcases List.mem_cons.mp hargs with he1 | he2
        · exact (ne_of_lastChar _ _ (by rw [lastChar?_append_slash]; decide)) he1
        · have he3 : "--delete" = pathStr pft.source_fileserver_dir := by
            simpa using he2
          exact (ne_of_headChar _ _ (by
            rw [headChar_pathStr_absolute _ haS]; decide)) he3

theorem sync_args_shape (pft : PFT) (run : List String → String) (direction : String)
    (delete ow imsure dry b : Bool)
    (hgS : goodDir pft.source_fileserver_dir) (hgT : goodDir pft.target_project_space_dir) :
    ∀ c ∈ (sync_with_fileserver pft run direction delete ow imsure dry b).launched,
      ∃ s t : PPath,
        ((s = pft.source_fileserver_dir ∧ t = pft.target_project_space_dir) ∨
         (s = pft.target_project_space_dir ∧ t = pft.source_fileserver_dir)) ∧
        c.reverse.get? 1 = some (pathStr s ++ "/") ∧
        c.getLast? = some (pathStr t) ∧
        lastChar? (pathStr s ++ "/") = some '/' ∧
        lastChar? (pathStr t) ≠ some '/' := by
  intro c hc
  rw [sync_launched_eq] at hc
  simp only [List.mem_singleton] at hc
  subst hc
  cases hdir : (direction == "from_fileserver" || direction == "from fileserver") with
  | true =>
    refine ⟨pft.source_fileserver_dir, pft.target_project_space_dir, Or.inl ⟨rfl, rfl⟩,
      ?_, ?_, lastChar?_append_slash _, lastChar?_pathStr_ne_slash _ hgT⟩ <;>
      cases delete <;> simp [hdir]
  | false =>
    refine ⟨pft.target_project_space_dir, pft.source_fileserver_dir, Or.inr ⟨rfl, rfl⟩,
      ?_, ?_, lastChar?_append_slash _, lastChar?_pathStr_ne_slash _ hgS⟩ <;>
      cases delete <;> simp [hdir]

theorem sync_noflags_newer_kept (pft : PFT) (run : List String → String)
    (direction : String) (imsure b : Bool) :
    ∀ c ∈ (sync_with_fileserver pft run direction false false imsure false b).launched,
      ∀ (srcT dstT : String → Option FileMeta) (f : String) (sm dm : FileMeta),
        srcT f = some sm → dstT f = some dm → sm.mtime < dm.mtime →
        rsyncTree c srcT dstT f = some dm := by
  intro c hc srcT dstT f sm dm hs hd hlt
  rw [sync_launched_eq] at hc
  simp only [List.mem_singleton] at hc
  subst hc
  by_cases hF : (((if false then false
      else (false || false ||
        (isTopLevelTierRoot pft.target_project_space_dir &&
         isTopLevelTierRoot pft.source_fileserver_dir))) && !imsure) = true)
  · rw [if_pos hF]
    rw [rsyncTree_dry_run _ (by rw [headD_cons]; decide)]
    exact hd
  · rw [if_neg hF]
    exact rsyncTree_newer_kept _ (by rw [headD_cons]; decide) (by rw [headD_cons]; decide)
      srcT dstT f sm dm hs hd hlt

/-- C6: the command built by `sync_with_fileserver` starts with `-auv` when
`overwrite_newer` is false, drops the skip-newer flag `u` (`-av`) when it is
true, appends `--delete` exactly when `delete` is true, and always gives the
rsync source argument a trailing `/` while the destination has none;
consequently (under the rsync model) a no-flags sync never overwrites a
destination file strictly newer than its source counterpart. -/
theorem sync_command_structure (pft : PFT) (run : List String → String)
    (direction : String) (delete ow imsure dry b : Bool)
    (hS : 2 ≤ pft.source_fileserver_dir.parts.length)
    (hT : 2 ≤ pft.target_project_space_dir.parts.length)
    (hgS : goodDir pft.source_fileserver_dir) (hgT : goodDir pft.target_project_space_dir)
    (haS : pft.source_fileserver_dir.absolute = true)
    (haT : pft.target_project_space_dir.absolute = true) :
    ∀ c ∈ (sync_with_fileserver pft run direction delete ow imsure dry b).launched,
      (ow = false → "-auv".data.isPrefixOf (c.headD "").data = true) ∧
      (ow = true → "-av".data.isPrefixOf (c.headD "").data = true ∧
        (c.headD "").data.contains 'u' = false) ∧
      ("--delete" ∈ c ↔ delete = true) ∧
      (∃ s t : PPath,
        ((s = pft.source_fileserver_dir ∧ t = pft.target_project_space_dir) ∨
         (s = pft.target_project_space_dir ∧ t = pft.source_fileserver_dir)) ∧
        c.reverse.get? 1 = some (pathStr s ++ "/") ∧
        c.getLast? = some (pathStr t) ∧
        lastChar? (pathStr s ++ "/") = some '/' ∧
        lastChar? (pathStr t) ≠ some '/') ∧
      (delete = false → ow = false → dry = false →
        ∀ (srcT dstT : String → Option FileMeta) (f : String) (sm dm : FileMeta),
          srcT f = some sm → dstT f = some dm → sm.mtime < dm.mtime →
          rsyncTree c srcT dstT f = some dm) := by
  intro c hc
  refine ⟨?_, ?_, sync_delete_mem pft run direction delete ow imsure dry b haS haT c hc,
    sync_args_shape pft run direction delete ow imsure dry b hgS hgT c hc, ?_⟩
  · intro how
    subst how
    obtain ⟨sfx, hsfx, hhead⟩ := sync_head_suffix pft run direction delete false imsure dry b c hc
    rw [hhead]
    rcases hsfx with rfl | rfl <;> decide
  · intro how
    subst how
    obtain ⟨sfx, hsfx, hhead⟩ := sync_head_suffix pft run direction delete true imsure dry b c hc
    rw [hhead]
    rcases hsfx with rfl | rfl <;> exact ⟨by decide, by decide⟩
  · intro hdel how hdry
    subst hdel
    subst how
    subst hdry
    exact sync_noflags_newer_kept pft run direction imsure b c hc

/-- C6 witness: the structure facts at the single command launched by a
concrete no-flags request. -/
theorem sync_command_structure_witness :
    (false = false → "-auv".data.isPrefixOf
      (((["-auv", "/grp/g_group/user/", "/projects/p_proj/user"] : List String).headD "")).data =
        true) ∧
    (false = true → "-av".data.isPrefixOf
      (((["-auv", "/grp/g_group/user/", "/projects/p_proj/user"] : List String).headD "")).data =
        true ∧
      (((["-auv", "/grp/g_group/user/", "/projects/p_proj/user"] : List String).headD
        "")).data.contains 'u' = false) ∧
    ("--delete" ∈ (["-auv", "/grp/g_group/user/", "/projects/p_proj/user"] : List String) ↔
      false = true) ∧
    (∃ s t : PPath,
      ((s = samplePFT.source_fileserver_dir ∧ t = samplePFT.target_project_space_dir) ∨
       (s = samplePFT.target_project_space_dir ∧ t = samplePFT.source_fileserver_dir)) ∧
      (["-auv", "/grp/g_group/user/", "/projects/p_proj/user"] : List String).reverse.get? 1 =
        some (pathStr s ++ "/") ∧
      (["-auv", "/grp/g_group/user/", "/projects/p_proj/user"] : List String).getLast? =
        some (pathStr t) ∧
      lastChar? (pathStr s ++ "/") = some '/' ∧
      lastChar? (pathStr t) ≠ some '/') ∧
    (false = false → false = false → false = false →
      ∀ (srcT dstT : String → Option FileMeta) (f : String) (sm dm : FileMeta),
        srcT f = some sm → dstT f = some dm → sm.mtime < dm.mtime →
        rsyncTree (["-auv", "/grp/g_group/user/", "/projects/p_proj/user"] : List String)
          srcT dstT f = some dm) :=
  sync_command_structure samplePFT (fun _ => "") "from fileserver"
    false false false false true (by decide) (by decide)
    ⟨by decide, by decide⟩ ⟨by decide, by decide⟩ (by decide) (by decide)
    ["-auv", "/grp/g_group/user/", "/projects/p_proj/user"] (by decide)

/-- C8 (amended): `sync_with_fileserver` never excludes anything — no
launched command contains an exclusion argument; in particular the
stager's scratch subdirectory is not excluded when syncing out of a tier
that contains it. -/
theorem sync_never_excludes (pft : PFT) (run : List String → String)
    (direction : String) (delete ow imsure dry b : Bool)
    (hS : 2 ≤ pft.source_fileserver_dir.parts.length)
    (hT : 2 ≤ pft.target_project_space_dir.parts.length)
    (haS : pft.source_fileserver_dir.absolute = true)
    (haT : pft.target_project_space_dir.absolute = true) :
    ∀ c ∈ (sync_with_fileserver pft run direction delete ow imsure dry b).launched,
      ∀ a ∈ c, isExclusionArg a = false := by
  intro c hc a ha
  rw [sync_launched_eq] at hc
  simp only [List.mem_singleton] at hc
  subst hc
  rcases List.mem_cons.mp ha with rfl | ha2
  · refine isExclusionArg_false_of_snd _ ?_
    cases ow <;> exact sndChar_append _ _ _ (sndChar_append _ _ _ (by decide))
  · rcases List.mem_append.mp ha2 with hdel | hargs
    · cases delete with
      | true =>
        have : a = "--delete" := by simpa using hdel
        subst this
        decide
      | false => simp at hdel
    · cases hdir : (direction == "from_fileserver" || direction == "from fileserver") with
      | true =>
        rw [if_pos hdir] at hargs
        rcases List.mem_cons.mp hargs with rfl | he2
        · exact isExclusionArg_false_of_head _
            (headChar_append_left _ _ (headChar_pathStr_absolute _ haS))
        · have he3 : a = pathStr pft.target_project_space_dir := by simpa using he2
          subst he3
          exact isExclusionArg_false_of_head _ (headChar_pathStr_absolute _ haT)
      | false =>
        rw [if_neg (by simp [hdir])] at hargs
        rcases List.mem_cons.mp hargs with rfl | he2
        · exact isExclusionArg_false_of_head _
            (headChar_append_left _ _ (headChar_pathStr_absolute _ haT))
        · have he3 : a = pathStr pft.source_fileserver_dir := by simpa using he2
          subst he3
          exact isExclusionArg_false_of_head _ (headChar_pathStr_absolute _ haS)

/-- C8 witness: at a configuration whose scratch directory lies inside the
project space, syncing out of that tier, the rsync source argument of the
launched command is no exclusion argument. -/
theorem sync_never_excludes_witness :
    isExclusionArg "/projects/p_proj/user/" = false :=
  sync_never_excludes scratchInsidePFT (fun _ => "") "to fileserver"
    false false false false true (by decide) (by decide) (by decide) (by decide)
    ["-auv", "/projects/p_proj/user/", "/grp/g_group/user"] (by decide)
    "/projects/p_proj/user/" (by decide)

/-- C8 counterexample: with the scratch directory inside the project-space
tree and a sync out of that tier (direction "to fileserver"), the single
launched command is exactly the flag word plus source and destination —
it contains no exclusion argument and no argument naming the scratch
directory, refuting the claim that the scratch subdirectory is excluded. -/
theorem sync_no_exclusion_cex :
    (sync_with_fileserver scratchInsidePFT (fun _ => "") "to fileserver"
        false false false false true).launched =
      [["-auv", "/projects/p_proj/user/", "/grp/g_group/user"]] ∧
    ∀ c ∈ (sync_with_fileserver scratchInsidePFT (fun _ => "") "to fileserver"
        false false false false true).launched, ∀ a ∈ c,
      isExclusionArg a = false ∧
      a ≠ pathStr scratchInsidePFT.temporary_directory_path := by
  decide
